import Mathlib

/-!
Verification of the GTFS translations resolver (catenarytransit/gtfs-translations).

The development shallowly embeds src/lib.rs: the closed field taxonomy,
the reference-key resolver, and the translation index builder.  Rust
`HashMap` / `HashSet` accumulators are modelled as association lists with
insert-or-overwrite (respectively insert-if-absent) semantics, so every
definition is executable.  The two external collaborators (the
`language_tags` crate and the `csv` crate) are modelled from the spec,
as marked on their definitions.
-/

set_option autoImplicit false

namespace GtfsTranslations

/-- Fields of stop_times translatable per the taxonomy (Rust enum StopTimeFields). -/
inductive StopTimeFields where
  | Headsign
deriving DecidableEq, Repr

/-- Fields of routes (Rust enum RouteFields); note Desc exists but is never produced by the lookup. -/
inductive RouteFields where
  | Desc
  | LongName
  | ShortName
  | Url
deriving DecidableEq, Repr

/-- Fields of calendar (Rust enum CalendarFields). -/
inductive CalendarFields where
  | ServiceId
deriving DecidableEq, Repr

/-- Fields of feed_info (Rust enum FeedInfoFields). -/
inductive FeedInfoFields where
  | PublisherName
deriving DecidableEq, Repr

/-- Fields of areas (Rust enum AreaFields). -/
inductive AreaFields where
  | Name
deriving DecidableEq, Repr

/-- Fields of agency (Rust enum AgencyFields). -/
inductive AgencyFields where
  | Name
  | FareUrl
  | Url
deriving DecidableEq, Repr

/-- Fields of fare_products (Rust enum FareProductFields). -/
inductive FareProductFields where
  | ProductName
deriving DecidableEq, Repr

/-- Fields of trips (Rust enum TripFields). -/
inductive TripFields where
  | Headsign
  | ShortName
deriving DecidableEq, Repr

/-- Fields of stops (Rust enum StopFields). -/
inductive StopFields where
  | Code
  | Name
  | TtsName
  | PlatformCode
  | Desc
deriving DecidableEq, Repr

/-- The two-level closed field identifier (Rust enum TranslatableField). -/
inductive TranslatableField where
  | Agency (f : AgencyFields)
  | Areas (f : AreaFields)
  | Calendar (f : CalendarFields)
  | FareProducts (f : FareProductFields)
  | FeedInfo (f : FeedInfoFields)
  | Routes (f : RouteFields)
  | StopTimes (f : StopTimeFields)
  | Stops (f : StopFields)
  | Trips (f : TripFields)
deriving DecidableEq, Repr

/-- The reference key of a translation row (Rust enum TranslationKey). -/
inductive TranslationKey where
  | Record (id : String)
  | RecordSub (ids : String × String)
  | Value (v : String)
deriving DecidableEq, Repr

/-- Modelled from the spec: a structured language tag as produced by the
external language_tags crate; the crate is an external collaborator, so
the tag is modelled as the accepted source text. -/
structure LanguageTag where
  tag : String
deriving DecidableEq, Repr

/-- Splitting a character list at every occurrence of a separator
character; the result always has at least one (possibly empty) piece. -/
def splitOnChar (c : Char) : List Char → List (List Char)
  | [] => [[]]
  | x :: xs =>
    match splitOnChar c xs with
    | [] => [[]]
    | y :: ys => if x = c then [] :: y :: ys else (x :: y) :: ys

/-- Modelled from the spec: BCP-47 well-formedness check of the external
language_tags crate (LanguageTag::parse): the text splits on hyphens into
subtags; the primary subtag is 2 to 8 letters and every following subtag
is 1 to 8 alphanumeric characters.  Parsing fails otherwise. -/
def LanguageTag.parse (s : String) : Option LanguageTag :=
  match splitOnChar '-' s.data with
  | [] => none
  | p :: rest =>
    if (2 ≤ p.length && p.length ≤ 8 && p.all Char.isAlpha)
        && rest.all (fun t => 1 ≤ t.length && t.length ≤ 8 && t.all Char.isAlphanum)
    then some ⟨s⟩ else none

/-- The composite lookup key (language, field, reference key) (Rust struct TranslationLookup). -/
structure TranslationLookup where
  language : LanguageTag
  field : TranslatableField
  key : TranslationKey
deriving DecidableEq, Repr

/-- A raw input row (Rust struct RawTranslation). -/
structure RawTranslation where
  table_name : String
  field_name : String
  language : String
  translation : String
  record_id : Option String
  record_sub_id : Option String
  field_value : Option String
deriving DecidableEq, Repr

/-- The resolved index (Rust struct TranslationResult); the HashMap of
translations is modelled as an association list. -/
structure TranslationResult where
  avaliable_languages : List LanguageTag
  translations : List (TranslationLookup × String)
  possible_translations : List (TranslatableField × LanguageTag)
deriving DecidableEq, Repr

/-- The closed taxonomy lookup (Rust fn table_and_field_to_enum),
matching on the raw table name, then on the raw field name. -/
def table_and_field_to_enum (table_name : String) (field_name : String) :
    Option TranslatableField :=
  match table_name with
  | "agency" =>
    match field_name with
    | "agency_name" => some (TranslatableField.Agency AgencyFields.Name)
    | "agency_url" => some (TranslatableField.Agency AgencyFields.Url)
    | "agency_fare_url" => some (TranslatableField.Agency AgencyFields.FareUrl)
    | _ => none
  | "areas" =>
    match field_name with
    | "area_name" => some (TranslatableField.Areas AreaFields.Name)
    | _ => none
  | "routes" =>
    match field_name with
    | "route_long_name" => some (TranslatableField.Routes RouteFields.LongName)
    | "route_short_name" => some (TranslatableField.Routes RouteFields.ShortName)
    | "route_url" => some (TranslatableField.Routes RouteFields.Url)
    | _ => none
  | "stop_times" =>
    match field_name with
    | "stop_headsign" => some (TranslatableField.StopTimes StopTimeFields.Headsign)
    | _ => none
  | "stops" =>
    match field_name with
    | "stop_code" => some (TranslatableField.Stops StopFields.Code)
    | "stop_name" => some (TranslatableField.Stops StopFields.Name)
    | "tts_stop_name" => some (TranslatableField.Stops StopFields.TtsName)
    | "stop_desc" => some (TranslatableField.Stops StopFields.Desc)
    | "platform_code" => some (TranslatableField.Stops StopFields.PlatformCode)
    | _ => none
  | "trips" =>
    match field_name with
    | "trip_headsign" => some (TranslatableField.Trips TripFields.Headsign)
    | "trip_short_name" => some (TranslatableField.Trips TripFields.ShortName)
    | _ => none
  | "calendar" =>
    match field_name with
    | "service_id" => some (TranslatableField.Calendar CalendarFields.ServiceId)
    | _ => none
  | "fare_products" =>
    match field_name with
    | "fare_product_name" => some (TranslatableField.FareProducts FareProductFields.ProductName)
    | _ => none
  | "feed_info" =>
    match field_name with
    | "feed_publisher_name" => some (TranslatableField.FeedInfo FeedInfoFields.PublisherName)
    | _ => none
  | _ => none

/-- The fixed registry of translatable (table, field) pairs as enumerated
by the spec (section 4.1); field names are the GTFS column names used in
the table and in the end-to-end examples of the spec. -/
def registry : List (String × String × TranslatableField) :=
  [("agency", "agency_name", TranslatableField.Agency AgencyFields.Name),
   ("agency", "agency_url", TranslatableField.Agency AgencyFields.Url),
   ("agency", "agency_fare_url", TranslatableField.Agency AgencyFields.FareUrl),
   ("areas", "area_name", TranslatableField.Areas AreaFields.Name),
   ("routes", "route_long_name", TranslatableField.Routes RouteFields.LongName),
   ("routes", "route_short_name", TranslatableField.Routes RouteFields.ShortName),
   ("routes", "route_url", TranslatableField.Routes RouteFields.Url),
   ("stop_times", "stop_headsign", TranslatableField.StopTimes StopTimeFields.Headsign),
   ("stops", "stop_code", TranslatableField.Stops StopFields.Code),
   ("stops", "stop_name", TranslatableField.Stops StopFields.Name),
   ("stops", "tts_stop_name", TranslatableField.Stops StopFields.TtsName),
   ("stops", "stop_desc", TranslatableField.Stops StopFields.Desc),
   ("stops", "platform_code", TranslatableField.Stops StopFields.PlatformCode),
   ("trips", "trip_headsign", TranslatableField.Trips TripFields.Headsign),
   ("trips", "trip_short_name", TranslatableField.Trips TripFields.ShortName),
   ("calendar", "service_id", TranslatableField.Calendar CalendarFields.ServiceId),
   ("fare_products", "fare_product_name", TranslatableField.FareProducts FareProductFields.ProductName),
   ("feed_info", "feed_publisher_name", TranslatableField.FeedInfo FeedInfoFields.PublisherName)]

/-- Spec-side view of the taxonomy: direct lookup in the registry list. -/
def registryLookup (table_name : String) (field_name : String) :
    Option TranslatableField :=
  (registry.find? (fun e => decide (table_name = e.1 ∧ field_name = e.2.1))).map (fun e => e.2.2)

/-- The key resolver (Rust fn key_options_to_struct): strict precedence
RecordSub over Record over Value. -/
def key_options_to_struct (record_id : Option String) (record_sub_id : Option String)
    (field_value : Option String) : Option TranslationKey :=
  match record_id, record_sub_id, field_value with
  | some rid, some rsub, _ => some (TranslationKey.RecordSub (rid, rsub))
  | some rid, _, _ => some (TranslationKey.Record rid)
  | _, _, some fv => some (TranslationKey.Value fv)
  | _, _, _ => none

/-- Insert-or-overwrite on the association-list model of the Rust HashMap:
an existing binding of the key has its value replaced in place, otherwise
the binding is appended. -/
def insertMap (m : List (TranslationLookup × String)) (k : TranslationLookup) (v : String) :
    List (TranslationLookup × String) :=
  if m.any (fun e => e.1 = k) then m.map (fun e => if e.1 = k then (k, v) else e)
  else m ++ [(k, v)]

/-- Lookup in the association-list model of the Rust HashMap. -/
def lookupMap (m : List (TranslationLookup × String)) (k : TranslationLookup) : Option String :=
  (m.find? (fun e => e.1 = k)).map (fun e => e.2)

/-- Insert-if-absent on the list model of a Rust HashSet. -/
def insertSet {α : Type} [DecidableEq α] (s : List α) (x : α) : List α :=
  if x ∈ s then s else s ++ [x]

/-- The per-row step of the index builder: the body of the for loop in
Rust fn translate_raw_translations, acting on the accumulator
(translations map, coverage set). -/
def processRow
    (st : List (TranslationLookup × String) × List (TranslatableField × LanguageTag))
    (row : RawTranslation) :
    List (TranslationLookup × String) × List (TranslatableField × LanguageTag) :=
  match LanguageTag.parse row.language with
  | some language_tag =>
    match table_and_field_to_enum row.table_name row.field_name with
    | some field =>
      match key_options_to_struct row.record_id row.record_sub_id row.field_value with
      | some key =>
        (insertMap st.1 ⟨language_tag, field, key⟩ row.translation,
         insertSet st.2 (field, language_tag))
      | none => st
    | none => st
  | none => st

/-- The index builder (Rust fn translate_raw_translations): fold the rows
into the map and coverage set, then derive the language list from the
coverage list. -/
def translate_raw_translations (raw_translations : List RawTranslation) : TranslationResult :=
  let st := raw_translations.foldl processRow ([], [])
  let possible_translations := st.2
  let avaliable_languages :=
    possible_translations.foldl (fun acc summary_item => insertSet acc summary_item.2) []
  { avaliable_languages := avaliable_languages,
    translations := st.1,
    possible_translations := possible_translations }

/-- Modelled from the spec: an optional CSV field as deserialized by the
external csv crate with serde; an empty field is an absent optional. -/
def optOfField (s : String) : Option String :=
  if s = "" then none else some s

/-- Modelled from the spec: per-row deserialization of the external csv
crate; a data line must carry exactly the seven columns of a raw row,
otherwise the row fails to deserialize. -/
def deserializeRow (line : List Char) : Except String RawTranslation :=
  match splitOnChar ',' line with
  | [t, f, lang, tr, rid, rsub, fv] =>
    Except.ok
      { table_name := ⟨t⟩, field_name := ⟨f⟩, language := ⟨lang⟩, translation := ⟨tr⟩,
        record_id := optOfField ⟨rid⟩, record_sub_id := optOfField ⟨rsub⟩,
        field_value := optOfField ⟨fv⟩ }
  | _ => Except.error "deserialize error"

/-- Modelled from the spec: the raw row iterator of the external csv
crate over the input text, yielding one per-row result per non-empty data
line after the header line. -/
def csvRows (data : String) : List (Except String RawTranslation) :=
  match splitOnChar '\n' data.data with
  | [] => []
  | _header :: rows => (rows.filter (fun r => r ≠ [])).map deserializeRow

/-- The accumulation loop of the CSV entry point: keep the successfully
deserialized rows, in order, skipping per-row failures. -/
def okRows (l : List (Except String RawTranslation)) : List RawTranslation :=
  l.foldl
    (fun acc r => match r with | Except.ok row => acc ++ [row] | Except.error _ => acc) []

/-- The CSV entry point (Rust fn translation_csv_text_to_translations):
iterate the decoded rows, keep the successfully deserialized ones, build
the index, and return it wrapped in Ok. -/
def translation_csv_text_to_translations (data : String) : Except String TranslationResult :=
  let iter := csvRows data
  let pre_translations := okRows iter
  Except.ok (translate_raw_translations pre_translations)

deriving instance DecidableEq for Except

/-! ## Taxonomy lemmas -/

/-- The taxonomy lookup agrees pointwise with direct lookup in the registry list. -/
theorem tafe_eq_registryLookup (t f : String) :
    table_and_field_to_enum t f = registryLookup t f := by
  unfold table_and_field_to_enum
  split <;> first
    | (split <;> simp_all [registryLookup, registry, List.find?])
    | simp_all [registryLookup, registry, List.find?]

/-- A successful taxonomy lookup comes from a registry entry. -/
theorem tafe_some_mem_registry (t f : String) (r : TranslatableField)
    (h : table_and_field_to_enum t f = some r) : (t, f, r) ∈ registry := by
  rw [tafe_eq_registryLookup, registryLookup, Option.map_eq_some'] at h
  obtain ⟨e, he, hr⟩ := h
  have hmem := List.mem_of_find?_eq_some he
  have hp := List.find?_some he
  simp only [decide_eq_true_eq] at hp
  obtain ⟨h1, h2⟩ := hp
  subst hr
  have : (t, f, e.2.2) = e := by
    rw [h1, h2]
  rw [this]
  exact hmem

/-- Every registry entry is found by the taxonomy lookup. -/
theorem tafe_of_mem_registry (t f : String) (r : TranslatableField)
    (h : (t, f, r) ∈ registry) : table_and_field_to_enum t f = some r := by
  have hall : ∀ e ∈ registry, table_and_field_to_enum e.1 e.2.1 = some e.2.2 := by decide
  exact hall (t, f, r) h

/-! ## Claim theorems: taxonomy and key resolver -/

/-- C1: the key resolver applies the fixed precedence: both record id and
record sub-id present yields RecordSub regardless of the field value;
record id alone yields Record regardless of the field value; with the
record id absent, a present field value yields Value. -/
theorem key_resolver_precedence (rid rsub x : String) (sub v : Option String) :
    key_options_to_struct (some rid) (some rsub) v
        = some (TranslationKey.RecordSub (rid, rsub))
    ∧ key_options_to_struct (some rid) none v = some (TranslationKey.Record rid)
    ∧ key_options_to_struct none sub (some x) = some (TranslationKey.Value x) := by
  refine ⟨?_, ?_, ?_⟩
  · cases v <;> rfl
  · cases v <;> rfl
  · cases sub <;> rfl

/-- C2: the taxonomy lookup returns a typed field exactly for the (table,
field) pairs of the fixed registry, and none for every other pair. -/
theorem taxonomy_registry_exact (t f : String) :
    (∀ r : TranslatableField, table_and_field_to_enum t f = some r ↔ (t, f, r) ∈ registry)
    ∧ (table_and_field_to_enum t f = none ↔ ∀ r : TranslatableField, (t, f, r) ∉ registry) := by
  constructor
  · intro r
    exact ⟨tafe_some_mem_registry t f r, tafe_of_mem_registry t f r⟩
  · constructor
    · intro h r hmem
      rw [tafe_of_mem_registry t f r hmem] at h
      exact Option.some_ne_none r h
    · intro h
      cases hr : table_and_field_to_enum t f with
      | none => rfl
      | some r => exact absurd (tafe_some_mem_registry t f r hr) (h r)

/-- C3 counterexample: with only the record sub-id present (record id and
field value absent) the resolver yields no key, although not all three
inputs are absent. -/
theorem key_resolver_subid_only_counterexample :
    key_options_to_struct none (some "1") none = none
    ∧ ¬((none : Option String) = none ∧ (some "1" : Option String) = none
        ∧ (none : Option String) = none) :=
  ⟨rfl, by simp⟩

/-- C3 amended: the key resolver yields no key exactly when the record id
and the field value are both absent (a record sub-id alone derives no
key); otherwise it yields exactly one reference key. -/
theorem key_resolver_none_iff (record_id record_sub_id field_value : Option String) :
    key_options_to_struct record_id record_sub_id field_value = none
      ↔ record_id = none ∧ field_value = none := by
  cases record_id <;> cases record_sub_id <;> cases field_value <;>
    simp [key_options_to_struct]

/-- C10: the taxonomy lookup never returns the Routes Desc field, so no
input row can populate an index entry with it. -/
theorem route_desc_never_produced (t f : String) :
    table_and_field_to_enum t f ≠ some (TranslatableField.Routes RouteFields.Desc) := by
  intro h
  have hmem := tafe_some_mem_registry t f (TranslatableField.Routes RouteFields.Desc) h
  have : ∀ e ∈ registry, e.2.2 ≠ TranslatableField.Routes RouteFields.Desc := by decide
  exact this _ hmem rfl

/-! ## Index builder lemmas -/

/-- A row fails one of the three row-level checks: unparseable language
tag, non-translatable (table, field) pair, or no derivable key. -/
def rowFails (row : RawTranslation) : Prop :=
  LanguageTag.parse row.language = none
  ∨ table_and_field_to_enum row.table_name row.field_name = none
  ∨ key_options_to_struct row.record_id row.record_sub_id row.field_value = none

instance (row : RawTranslation) : Decidable (rowFails row) := by
  unfold rowFails
  infer_instance

/-- The lookup triple a successfully checked row resolves to, if any. -/
def rowTriple (row : RawTranslation) : Option TranslationLookup :=
  match LanguageTag.parse row.language,
        table_and_field_to_enum row.table_name row.field_name,
        key_options_to_struct row.record_id row.record_sub_id row.field_value with
  | some lt, some fld, some k => some ⟨lt, fld, k⟩
  | _, _, _ => none

/-- A failing row leaves the accumulator untouched. -/
theorem processRow_skip
    (st : List (TranslationLookup × String) × List (TranslatableField × LanguageTag))
    (row : RawTranslation) (h : rowFails row) : processRow st row = st := by
  unfold processRow
  cases hp : LanguageTag.parse row.language with
  | none => rfl
  | some lt =>
    cases hf : table_and_field_to_enum row.table_name row.field_name with
    | none => rfl
    | some fld =>
      cases hk : key_options_to_struct row.record_id row.record_sub_id row.field_value with
      | none => rfl
      | some k =>
        rcases h with h | h | h
        · rw [h] at hp; cases hp
        · rw [h] at hf; cases hf
        · rw [h] at hk; cases hk

/-- A row that resolves to a triple inserts exactly that triple into the
map and its (field, language) pair into the coverage set. -/
theorem processRow_of_triple
    (st : List (TranslationLookup × String) × List (TranslatableField × LanguageTag))
    (row : RawTranslation) (t : TranslationLookup) (h : rowTriple row = some t) :
    processRow st row
      = (insertMap st.1 t row.translation, insertSet st.2 (t.field, t.language)) := by
  unfold rowTriple at h
  unfold processRow
  cases hp : LanguageTag.parse row.language with
  | none => rw [hp] at h; cases h
  | some lt =>
    cases hf : table_and_field_to_enum row.table_name row.field_name with
    | none => rw [hp, hf] at h; cases h
    | some fld =>
      cases hk : key_options_to_struct row.record_id row.record_sub_id row.field_value with
      | none => rw [hp, hf, hk] at h; cases h
      | some k =>
        rw [hp, hf, hk] at h
        simp only [Option.some.injEq] at h
        rw [← h]

/-- A row with no resolvable triple leaves the accumulator untouched. -/
theorem processRow_of_triple_none
    (st : List (TranslationLookup × String) × List (TranslatableField × LanguageTag))
    (row : RawTranslation) (h : rowTriple row = none) : processRow st row = st := by
  unfold rowTriple at h
  unfold processRow
  cases hp : LanguageTag.parse row.language with
  | none => rfl
  | some lt =>
    cases hf : table_and_field_to_enum row.table_name row.field_name with
    | none => rfl
    | some fld =>
      cases hk : key_options_to_struct row.record_id row.record_sub_id row.field_value with
      | none => rfl
      | some k => rw [hp, hf, hk] at h; cases h

/-- Replacing the binding of a present key keeps it findable with the new value. -/
theorem find?_replace_self (m : List (TranslationLookup × String))
    (k : TranslationLookup) (v : String)
    (hany : m.any (fun e => e.1 = k) = true) :
    List.find? (fun e => e.1 = k) (m.map (fun e => if e.1 = k then (k, v) else e))
      = some (k, v) := by
  induction m with
  | nil => simp at hany
  | cons e rest ih =>
    simp only [List.any_cons, Bool.or_eq_true, decide_eq_true_eq] at hany
    by_cases he : e.1 = k
    · simp [he]
    · have hrest : rest.any (fun e => e.1 = k) = true := by
        rcases hany with h | h
        · exact absurd h he
        · exact h
      simp [he, ih hrest]

/-- Lookup of a freshly inserted key yields the inserted value. -/
theorem lookupMap_insertMap_self (m : List (TranslationLookup × String))
    (k : TranslationLookup) (v : String) :
    lookupMap (insertMap m k v) k = some v := by
  unfold insertMap lookupMap
  by_cases hany : m.any (fun e => e.1 = k) = true
  · rw [if_pos hany, find?_replace_self m k v hany]
    rfl
  · rw [if_neg hany, List.find?_append]
    have hnone : m.find? (fun e => e.1 = k) = none := by
      rw [List.find?_eq_none]
      intro x hx hpx
      exact hany (List.any_eq_true.mpr ⟨x, hx, hpx⟩)
    simp [hnone]

/-- Replacing the binding of one key does not change what is found at a
different key. -/
theorem find?_map_replace_ne (m : List (TranslationLookup × String))
    (k2 k : TranslationLookup) (v : String) (hne : k2 ≠ k) :
    List.find? (fun e => e.1 = k) (m.map (fun e => if e.1 = k2 then (k2, v) else e))
      = List.find? (fun e => e.1 = k) m := by
  induction m with
  | nil => rfl
  | cons e rest ih =>
    by_cases he : e.1 = k2
    · have hek : ¬e.1 = k := by rw [he]; exact hne
      simp only [List.map_cons, if_pos he]
      rw [List.find?_cons_of_neg _ (by simpa using hne),
          List.find?_cons_of_neg _ (by simpa using hek)]
      exact ih
    · simp only [List.map_cons, if_neg he]
      by_cases hek : e.1 = k
      · rw [List.find?_cons_of_pos _ (by simpa using hek),
            List.find?_cons_of_pos _ (by simpa using hek)]
      · rw [List.find?_cons_of_neg _ (by simpa using hek),
            List.find?_cons_of_neg _ (by simpa using hek)]
        exact ih

/-- Insertion at one key does not change lookup at a different key. -/
theorem lookupMap_insertMap_ne (m : List (TranslationLookup × String))
    (k2 k : TranslationLookup) (v : String) (hne : k2 ≠ k) :
    lookupMap (insertMap m k2 v) k = lookupMap m k := by
  unfold insertMap lookupMap
  by_cases hany : m.any (fun e => e.1 = k2) = true
  · rw [if_pos hany, find?_map_replace_ne m k2 k v hne]
  · rw [if_neg hany, List.find?_append]
    have hsing : List.find? (fun e => e.1 = k) [(k2, v)] = none := by
      simp [List.find?, hne]
    rw [hsing]
    cases m.find? (fun e => e.1 = k) <;> rfl

/-- Every key present before an insertion, and the inserted key, are
present after it. -/
theorem exists_key_insertMap (m : List (TranslationLookup × String))
    (k : TranslationLookup) (v : String) (k0 : TranslationLookup)
    (h : (∃ v0, (k0, v0) ∈ m) ∨ k0 = k) :
    ∃ v1, (k0, v1) ∈ insertMap m k v := by
  unfold insertMap
  by_cases hany : m.any (fun e => e.1 = k) = true
  · rw [if_pos hany]
    rcases h with ⟨v0, hv0⟩ | rfl
    · by_cases hk0 : k0 = k
      · subst hk0
        refine ⟨v, ?_⟩
        exact List.mem_map.mpr ⟨(k0, v0), hv0, by simp⟩
      · refine ⟨v0, ?_⟩
        exact List.mem_map.mpr ⟨(k0, v0), hv0, by simp [hk0]⟩
    · obtain ⟨e, he, hpe⟩ := List.any_eq_true.mp hany
      simp only [decide_eq_true_eq] at hpe
      refine ⟨v, ?_⟩
      refine List.mem_map.mpr ⟨e, he, ?_⟩
      simp [hpe]
  · rw [if_neg hany]
    rcases h with ⟨v0, hv0⟩ | rfl
    · exact ⟨v0, List.mem_append_left _ hv0⟩
    · exact ⟨v, List.mem_append_right _ (by simp)⟩

/-- Membership after insert-if-absent. -/
theorem mem_insertSet {α : Type} [DecidableEq α] (s : List α) (x y : α) :
    y ∈ insertSet s x ↔ y ∈ s ∨ y = x := by
  unfold insertSet
  by_cases hx : x ∈ s
  · rw [if_pos hx]
    constructor
    · exact Or.inl
    · rintro (h | rfl)
      · exact h
      · exact hx
  · rw [if_neg hx]
    simp

/-- C4: a row failing a row-level check contributes nothing: the build
result equals the result on the sequence with that row removed. -/
theorem failing_row_removal_invariant (pre post : List RawTranslation)
    (row : RawTranslation) (h : rowFails row) :
    translate_raw_translations (pre ++ row :: post)
      = translate_raw_translations (pre ++ post) := by
  unfold translate_raw_translations
  rw [List.foldl_append, List.foldl_append, List.foldl_cons, processRow_skip _ row h]

/-- C4 witness: a concrete row with an unparseable (empty) language tag
is dropped from a concrete one-row input. -/
theorem failing_row_removal_invariant_witness :
    rowFails
      { table_name := "stops", field_name := "stop_name", language := "",
        translation := "x", record_id := some "S1", record_sub_id := none,
        field_value := none }
    ∧ translate_raw_translations
        ([] ++ { table_name := "stops", field_name := "stop_name", language := "",
                 translation := "x", record_id := some "S1", record_sub_id := none,
                 field_value := none } :: [])
      = translate_raw_translations ([] ++ []) :=
  ⟨by decide, failing_row_removal_invariant [] [] _ (by decide)⟩

/-- The translations component of the result is the first accumulator
component of the fold. -/
theorem translate_translations_eq (rows : List RawTranslation) :
    (translate_raw_translations rows).translations
      = (rows.foldl processRow ([], [])).1 := rfl

/-- The coverage component of the result is the second accumulator
component of the fold. -/
theorem translate_possible_eq (rows : List RawTranslation) :
    (translate_raw_translations rows).possible_translations
      = (rows.foldl processRow ([], [])).2 := rfl

/-- The language list of the result is derived from the coverage list. -/
theorem translate_langs_eq (rows : List RawTranslation) :
    (translate_raw_translations rows).avaliable_languages
      = (rows.foldl processRow ([], [])).2.foldl
          (fun acc summary_item => insertSet acc summary_item.2) [] := rfl

/-- Rows that do not resolve to a given triple leave the lookup at that
triple unchanged across the fold. -/
theorem lookup_foldl_preserved (t : TranslationLookup) :
    ∀ (l : List RawTranslation)
      (st : List (TranslationLookup × String) × List (TranslatableField × LanguageTag)),
      (∀ r ∈ l, rowTriple r ≠ some t) →
      lookupMap (l.foldl processRow st).1 t = lookupMap st.1 t := by
  intro l
  induction l with
  | nil => intro st _; rfl
  | cons r rest ih =>
    intro st h
    rw [List.foldl_cons]
    have hr := h r (List.mem_cons_self r rest)
    have hrest : ∀ x ∈ rest, rowTriple x ≠ some t :=
      fun x hx => h x (List.mem_cons_of_mem r hx)
    cases htr : rowTriple r with
    | none =>
      rw [processRow_of_triple_none st r htr]
      exact ih st hrest
    | some t2 =>
      have ht2 : t2 ≠ t := fun heq => hr (heq ▸ htr)
      rw [processRow_of_triple st r t2 htr, ih _ hrest]
      exact lookupMap_insertMap_ne st.1 t2 t r.translation ht2

/-- C5: when two rows resolve to the identical lookup triple with
different texts, the final map holds the text of the one appearing later
in the input (no later row touching the triple). -/
theorem last_write_wins (pre post : List RawTranslation) (r1 r2 : RawTranslation)
    (t : TranslationLookup)
    (hr1 : r1 ∈ pre) (h1 : rowTriple r1 = some t) (h2 : rowTriple r2 = some t)
    (hne : r1.translation ≠ r2.translation)
    (hpost : ∀ r ∈ post, rowTriple r ≠ some t) :
    lookupMap (translate_raw_translations (pre ++ r2 :: post)).translations t
      = some r2.translation := by
  rw [translate_translations_eq, List.foldl_append, List.foldl_cons,
      processRow_of_triple _ r2 t h2, lookup_foldl_preserved t post _ hpost]
  exact lookupMap_insertMap_self _ t r2.translation

/-- A sample row translating the name of stop S1 to English text A. -/
def rowA : RawTranslation :=
  { table_name := "stops", field_name := "stop_name", language := "en",
    translation := "A", record_id := some "S1", record_sub_id := none,
    field_value := none }

/-- The same row as rowA with translation text B instead. -/
def rowB : RawTranslation :=
  { table_name := "stops", field_name := "stop_name", language := "en",
    translation := "B", record_id := some "S1", record_sub_id := none,
    field_value := none }

/-- The lookup triple rowA and rowB resolve to. -/
def sampleTriple : TranslationLookup :=
  ⟨⟨"en"⟩, TranslatableField.Stops StopFields.Name, TranslationKey.Record "S1"⟩

/-- C5 witness: with input rowA then rowB (identical triple, texts A and
B), the final lookup at the triple is B. -/
theorem last_write_wins_witness :
    rowA ∈ [rowA] ∧ rowTriple rowA = some sampleTriple
    ∧ rowTriple rowB = some sampleTriple
    ∧ rowA.translation ≠ rowB.translation
    ∧ (∀ r ∈ ([] : List RawTranslation), rowTriple r ≠ some sampleTriple)
    ∧ lookupMap (translate_raw_translations ([rowA] ++ rowB :: [])).translations sampleTriple
        = some rowB.translation :=
  ⟨by decide, by decide, by decide, by decide, (by intro r hr; cases hr),
   last_write_wins [rowA] [] rowA rowB sampleTriple (by decide) (by decide)
     (by decide) (by decide) (by intro r hr; cases hr)⟩

/-- The coverage invariant: every coverage pair is backed by a map entry
whose key carries that field and that language. -/
def covInv
    (st : List (TranslationLookup × String) × List (TranslatableField × LanguageTag)) :
    Prop :=
  ∀ p ∈ st.2, ∃ e ∈ st.1, e.1.field = p.1 ∧ e.1.language = p.2

/-- One builder step preserves the coverage invariant. -/
theorem covInv_processRow
    (st : List (TranslationLookup × String) × List (TranslatableField × LanguageTag))
    (row : RawTranslation) (h : covInv st) : covInv (processRow st row) := by
  cases htr : rowTriple row with
  | none => rw [processRow_of_triple_none st row htr]; exact h
  | some t =>
    rw [processRow_of_triple st row t htr]
    intro p hp
    rw [mem_insertSet] at hp
    rcases hp with hp | rfl
    · obtain ⟨e, he, hf, hl⟩ := h p hp
      obtain ⟨v1, hv1⟩ :=
        exists_key_insertMap st.1 t row.translation e.1 (Or.inl ⟨e.2, by simpa using he⟩)
      exact ⟨(e.1, v1), hv1, hf, hl⟩
    · obtain ⟨v1, hv1⟩ := exists_key_insertMap st.1 t row.translation t (Or.inr rfl)
      exact ⟨(t, v1), hv1, rfl, rfl⟩

/-- The whole fold preserves the coverage invariant. -/
theorem covInv_foldl :
    ∀ (l : List RawTranslation)
      (st : List (TranslationLookup × String) × List (TranslatableField × LanguageTag)),
      covInv st → covInv (l.foldl processRow st) := by
  intro l
  induction l with
  | nil => intro st h; exact h
  | cons r rest ih =>
    intro st h
    rw [List.foldl_cons]
    exact ih _ (covInv_processRow st r h)

/-- Every element of the language fold comes from the accumulator or from
the language component of some pair of the list. -/
theorem mem_langs_foldl :
    ∀ (l : List (TranslatableField × LanguageTag)) (acc : List LanguageTag) (x : LanguageTag),
      x ∈ l.foldl (fun a p => insertSet a p.2) acc → x ∈ acc ∨ ∃ p ∈ l, p.2 = x := by
  intro l
  induction l with
  | nil => intro acc x h; exact Or.inl h
  | cons p rest ih =>
    intro acc x h
    rw [List.foldl_cons] at h
    rcases ih _ x h with hacc | ⟨q, hq, hq2⟩
    · rw [mem_insertSet] at hacc
      rcases hacc with h1 | rfl
      · exact Or.inl h1
      · exact Or.inr ⟨p, List.mem_cons_self p rest, rfl⟩
    · exact Or.inr ⟨q, List.mem_cons_of_mem p hq, hq2⟩

/-- C6: the result is mutually consistent: every available language
appears in some coverage pair, and every coverage pair is backed by a
lookup-map entry with that field and language. -/
theorem translation_result_consistent (rows : List RawTranslation) :
    (∀ lang ∈ (translate_raw_translations rows).avaliable_languages,
        ∃ p ∈ (translate_raw_translations rows).possible_translations, p.2 = lang)
    ∧ (∀ p ∈ (translate_raw_translations rows).possible_translations,
        ∃ e ∈ (translate_raw_translations rows).translations,
          e.1.field = p.1 ∧ e.1.language = p.2) := by
  constructor
  · intro lang hl
    rw [translate_langs_eq] at hl
    rcases mem_langs_foldl _ [] lang hl with h | h
    · cases h
    · rw [translate_possible_eq]
      exact h
  · intro p hp
    rw [translate_possible_eq] at hp
    rw [translate_translations_eq]
    have hinv : covInv (rows.foldl processRow ([], [])) :=
      covInv_foldl rows ([], []) (by intro q hq; cases hq)
    exact hinv p hp

/-- C6 witness: on the concrete one-row input rowA, the coverage pair
(Stops Name, en) is backed by a map entry. -/
theorem translation_result_consistent_witness :
    ∃ e ∈ (translate_raw_translations [rowA]).translations,
      e.1.field = TranslatableField.Stops StopFields.Name ∧ e.1.language = ⟨"en"⟩ :=
  (translation_result_consistent [rowA]).2
    (TranslatableField.Stops StopFields.Name, ⟨"en"⟩) (by decide)

/-- C9: the CSV entry point returns Ok on every input, building from the
successfully decoded rows; it never returns Err. -/
theorem csv_build_always_ok (data : String) :
    translation_csv_text_to_translations data
        = Except.ok (translate_raw_translations (okRows (csvRows data)))
    ∧ ∀ e, translation_csv_text_to_translations data ≠ Except.error e :=
  ⟨rfl, fun e h => Except.noConfusion h⟩

/-- C7 counterexample: on a concrete input whose only data line fails the
CSV decoder, the build still returns Ok (of the empty index) instead of
propagating an Err. -/
theorem csv_failure_not_propagated_counterexample :
    csvRows "table_name\nbad" = [Except.error "deserialize error"]
    ∧ translation_csv_text_to_translations "table_name\nbad"
        = Except.ok (translate_raw_translations []) :=
  ⟨rfl, rfl⟩

/-- C7 amended: when the CSV decoder fails on rows of the input, the
build is not failed as a whole: the result is Ok, built from the
successfully decoded rows, and no Err is ever returned. -/
theorem csv_decoder_failure_recovered (data : String)
    (h : ∃ e, Except.error e ∈ csvRows data) :
    translation_csv_text_to_translations data
        = Except.ok (translate_raw_translations (okRows (csvRows data)))
    ∧ ∀ e2, translation_csv_text_to_translations data ≠ Except.error e2 :=
  ⟨rfl, fun e2 h2 => Except.noConfusion h2⟩

/-- C7 amended witness: the concrete input with one undecodable data line
has a decoder failure, and the build returns Ok on it. -/
theorem csv_decoder_failure_recovered_witness :
    (∃ e, Except.error e ∈ csvRows "table_name\nbad")
    ∧ translation_csv_text_to_translations "table_name\nbad"
        = Except.ok (translate_raw_translations (okRows (csvRows "table_name\nbad"))) :=
  ⟨⟨"deserialize error", by decide⟩,
   (csv_decoder_failure_recovered "table_name\nbad" ⟨"deserialize error", by decide⟩).1⟩

/-- C2 witness: the lookup maps the concrete registry pair (agency,
agency_name) to the Agency Name field. -/
theorem taxonomy_registry_exact_witness :
    table_and_field_to_enum "agency" "agency_name"
      = some (TranslatableField.Agency AgencyFields.Name) :=
  ((taxonomy_registry_exact "agency" "agency_name").1
    (TranslatableField.Agency AgencyFields.Name)).mpr (by decide)

/-- C3 amended witness: with all inputs absent the resolver yields no key. -/
theorem key_resolver_none_iff_witness :
    key_options_to_struct none none none = none :=
  (key_resolver_none_iff none none none).mpr ⟨rfl, rfl⟩

/-- C10 witness: at the concrete pair (routes, route_desc) the lookup
does not return the Routes Desc field. -/
theorem route_desc_never_produced_witness :
    table_and_field_to_enum "routes" "route_desc"
      ≠ some (TranslatableField.Routes RouteFields.Desc) :=
  route_desc_never_produced "routes" "route_desc"

/-- C9 witness: on a concrete well-formed input the entry point returns Ok. -/
theorem csv_build_always_ok_witness :
    translation_csv_text_to_translations "table_name\nstops,stop_name,en,Main St,S1,,"
      = Except.ok
          (translate_raw_translations
            (okRows (csvRows "table_name\nstops,stop_name,en,Main St,S1,,"))) :=
  (csv_build_always_ok "table_name\nstops,stop_name,en,Main St,S1,,").1

end GtfsTranslations
